import Mathlib

/-!
Verification of the Amplifier coding-orchestrator stack:
the orchestration loop (`amplifier_module_orchestrator_coding`),
the OpenAI provider adapter (`amplifier_module_provider_openai_v2`)
and the context manager (`amplifier_module_context_coding`),
shallowly embedded in Lean 4.
-/

namespace Amplifier

/-- A model of a dynamically-typed Python value, covering the shapes that
flow through the adapter and the orchestrator (None, bools, ints, strings,
lists and string-keyed dicts).  Floating-point numbers are outside the model. -/
inductive PyValue where
  | none
  | bool (b : Bool)
  | int (n : Int)
  | str (s : String)
  | list (xs : List PyValue)
  | dict (fields : List (String × PyValue))

/-- The single-quote character, written by code point to keep sources plain. -/
def sq : Char := Char.ofNat 39

/-- The double-quote character. -/
def dq : Char := Char.ofNat 34

/-- The opening-brace character. -/
def obr : Char := Char.ofNat 123

/-- The closing-brace character. -/
def cbr : Char := Char.ofNat 125

/-- Quote a string the way Python `repr` does: single quotes by default,
double quotes when the string contains a single quote but no double quote.
(Escape sequences inside the string are not modelled.) -/
def pyQuote (s : String) : String :=
  if s.contains sq && !(s.contains dq) then
    String.singleton dq ++ s ++ String.singleton dq
  else
    String.singleton sq ++ s ++ String.singleton sq

mutual

/-- Python `repr` of a value (used by `str` on containers and by f-strings
on non-string values). -/
def pyRepr : PyValue → String
  | .none => "None"
  | .bool b => if b then "True" else "False"
  | .int n => toString n
  | .str s => pyQuote s
  | .list xs => "[" ++ String.intercalate ", " (pyReprList xs) ++ "]"
  | .dict fs => String.singleton obr ++ String.intercalate ", " (pyReprFields fs)
      ++ String.singleton cbr

/-- `repr` of each element of a list. -/
def pyReprList : List PyValue → List String
  | [] => []
  | x :: xs => pyRepr x :: pyReprList xs

/-- `repr` of each `key: value` entry of a dict. -/
def pyReprFields : List (String × PyValue) → List String
  | [] => []
  | (k, v) :: fs => (pyQuote k ++ ": " ++ pyRepr v) :: pyReprFields fs

end

/-- Python `str` of a value: a string is returned as-is, anything else
falls back to `repr`. -/
def pyStr (v : PyValue) : String :=
  match v with
  | .str s => s
  | v => pyRepr v

/-- Python truthiness: `None`, `False`, `0`, empty strings and empty
containers are falsy. -/
def pyTruthy : PyValue → Bool
  | .none => false
  | .bool b => b
  | .int n => n != 0
  | .str s => !s.isEmpty
  | .list xs => !xs.isEmpty
  | .dict fs => !fs.isEmpty

/-- Python `a or b`: the first operand if truthy, otherwise the second. -/
def pyOr (a b : PyValue) : PyValue := if pyTruthy a then a else b

/- ### A model of `json.loads`

The repository calls the Python standard library's `json.loads` inside
`OpenAIProvider._parse_openai_response._maybe_json`.  We model it with an
executable recursive-descent parser over the JSON grammar (objects, arrays,
strings, integer numbers and the three literals); numbers with a fractional
or exponent part are outside the model and parse as failures, which is
irrelevant for the theorems below since they either assume a failing parse
or evaluate on concrete inputs that no JSON implementation accepts. -/

/-- JSON insignificant whitespace. -/
def isJsonWs (c : Char) : Bool :=
  c == ' ' || c == Char.ofNat 9 || c == Char.ofNat 10 || c == Char.ofNat 13

/-- Drop leading JSON whitespace. -/
def skipWs : List Char → List Char
  | [] => []
  | c :: cs => if isJsonWs c then skipWs cs else c :: cs

/-- Accumulate the body of a JSON string up to the closing quote; a
backslash escapes the following character (common escapes mapped). -/
def parseStringBody : List Char → List Char → Option (String × List Char)
  | acc, c :: cs =>
    if c == dq then Option.some (String.mk acc.reverse, cs)
    else if c == Char.ofNat 92 then
      match cs with
      | [] => Option.none
      | e :: cs2 =>
        let mapped : Char :=
          if e == 'n' then Char.ofNat 10
          else if e == 't' then Char.ofNat 9
          else if e == 'r' then Char.ofNat 13
          else e
        parseStringBody (mapped :: acc) cs2
    else parseStringBody (c :: acc) cs
  | _, [] => Option.none

/-- Split off a maximal run of decimal digits. -/
def takeDigits : List Char → List Char × List Char
  | [] => ([], [])
  | c :: cs =>
    if c.isDigit then
      let (ds, rest) := takeDigits cs
      (c :: ds, rest)
    else ([], c :: cs)

/-- Decimal digits to a natural number. -/
def digitsToNat (ds : List Char) : Nat :=
  ds.foldl (fun a c => a * 10 + (c.toNat - 48)) 0

/-- Parse a JSON integer (an optional minus sign then digits); a following
fractional or exponent marker makes the parse fail (floats unmodelled). -/
def parseNumber (cs : List Char) : Option (PyValue × List Char) :=
  let (neg, cs1) :=
    match cs with
    | '-' :: rest => (true, rest)
    | _ => (false, cs)
  let (ds, rest) := takeDigits cs1
  if ds.isEmpty then Option.none
  else
    match rest with
    | '.' :: _ => Option.none
    | 'e' :: _ => Option.none
    | 'E' :: _ => Option.none
    | _ =>
      let n : Int := Int.ofNat (digitsToNat ds)
      Option.some (.int (if neg then -n else n), rest)

mutual

/-- Parse one JSON value from the head of the input (fueled). -/
def parseValue : Nat → List Char → Option (PyValue × List Char)
  | 0, _ => Option.none
  | fuel + 1, cs =>
    match skipWs cs with
    | [] => Option.none
    | c :: rest =>
      if c == dq then
        match parseStringBody [] rest with
        | Option.some (s, rest2) => Option.some (.str s, rest2)
        | Option.none => Option.none
      else if c == '[' then
        match skipWs rest with
        | ']' :: rest2 => Option.some (.list [], rest2)
        | _ =>
          match parseElems fuel rest with
          | Option.some (xs, rest2) => Option.some (.list xs, rest2)
          | Option.none => Option.none
      else if c == obr then
        match skipWs rest with
        | c2 :: rest2 =>
          if c2 == cbr then Option.some (.dict [], rest2)
          else
            match parseMembers fuel rest with
            | Option.some (fs, rest3) => Option.some (.dict fs, rest3)
            | Option.none => Option.none
        | [] => Option.none
      else
        match c :: rest with
        | 'n' :: 'u' :: 'l' :: 'l' :: rest2 => Option.some (.none, rest2)
        | 't' :: 'r' :: 'u' :: 'e' :: rest2 => Option.some (.bool true, rest2)
        | 'f' :: 'a' :: 'l' :: 's' :: 'e' :: rest2 => Option.some (.bool false, rest2)
        | cs2 => parseNumber cs2

/-- Parse a comma-separated list of values followed by `]` (fueled). -/
def parseElems : Nat → List Char → Option (List PyValue × List Char)
  | 0, _ => Option.none
  | fuel + 1, cs =>
    match parseValue fuel cs with
    | Option.none => Option.none
    | Option.some (v, rest) =>
      match skipWs rest with
      | ',' :: rest2 =>
        match parseElems fuel rest2 with
        | Option.some (xs, rest3) => Option.some (v :: xs, rest3)
        | Option.none => Option.none
      | ']' :: rest2 => Option.some ([v], rest2)
      | _ => Option.none

/-- Parse comma-separated `"key": value` members followed by the closing
brace (fueled). -/
def parseMembers : Nat → List Char → Option (List (String × PyValue) × List Char)
  | 0, _ => Option.none
  | fuel + 1, cs =>
    match skipWs cs with
    | c :: rest =>
      if c == dq then
        match parseStringBody [] rest with
        | Option.some (k, rest2) =>
          match skipWs rest2 with
          | ':' :: rest3 =>
            match parseValue fuel rest3 with
            | Option.some (v, rest4) =>
              match skipWs rest4 with
              | ',' :: rest5 =>
                match parseMembers fuel rest5 with
                | Option.some (fs, rest6) => Option.some ((k, v) :: fs, rest6)
                | Option.none => Option.none
              | c2 :: rest5 =>
                if c2 == cbr then Option.some ([(k, v)], rest5) else Option.none
              | [] => Option.none
            | Option.none => Option.none
          | _ => Option.none
        | Option.none => Option.none
      else Option.none
    | [] => Option.none

end

/-- Model of Python `json.loads`: parse one value and require only
whitespace to remain; `Option.none` models a raised `JSONDecodeError`. -/
def jsonLoads (s : String) : Option PyValue :=
  match parseValue (s.length + 2) s.toList with
  | Option.some (v, rest) =>
    if (skipWs rest).isEmpty then Option.some v else Option.none
  | Option.none => Option.none

/- ### `OpenAIProvider._parse_openai_response` helpers -/

/-- `_maybe_json` (provider `__init__.py` lines 550-557): a string is run
through `json.loads`, a decode failure returns the original string, and a
non-string passes through unchanged. -/
def maybeJson (data : PyValue) : PyValue :=
  match data with
  | .str s =>
    match jsonLoads s with
    | Option.some v => v
    | Option.none => .str s
  | v => v

/-- `_ensure_dict` (provider `__init__.py` lines 559-564): a dict is kept,
`None` becomes the empty dict, anything else is wrapped as
`value: v`. -/
def ensureDict : PyValue → List (String × PyValue)
  | .dict fs => fs
  | .none => []
  | v => [("value", v)]

/-- `_get` (provider `__init__.py` lines 543-548) specialised to dict wire
items: dict lookup with `None` default. -/
def pyGet (item : List (String × PyValue)) (attr : String) : PyValue :=
  match item.lookup attr with
  | Option.some v => v
  | Option.none => .none

/-- The `arguments` decoding path of the `function_call` branch of
`_parse_openai_response` (lines 636-646): take `arguments`, fall back to
`input` when it is `None`, then `_ensure_dict(_maybe_json(...))`. -/
def wireItemParsedArguments (item : List (String × PyValue)) : List (String × PyValue) :=
  let argumentsRaw := pyGet item "arguments"
  let argumentsRaw :=
    match argumentsRaw with
    | .none => pyGet item "input"
    | v => v
  ensureDict (maybeJson argumentsRaw)

/-- The argument-decoding composition applied to a raw payload. -/
def parsedToolArguments (argumentsRaw : PyValue) : List (String × PyValue) :=
  ensureDict (maybeJson argumentsRaw)

/- ### `OpenAIProvider._extract_usage`

Responses and usage objects reaching `_extract_usage` are either SDK objects
(attribute access works, `isinstance(x, dict)` is false) or plain dicts
(attribute access finds nothing, `.get` works) or bare values.  `UVal`
models all three. -/

/-- A Python value as seen by `_extract_usage`: a bare value, an
attribute-bearing object (`obj false`), or a dict (`obj true`). -/
inductive UVal where
  | v (x : PyValue)
  | obj (isDict : Bool) (fields : List (String × UVal))

/-- `x is None`. -/
def UVal.isNone : UVal → Bool
  | .v .none => true
  | _ => false

/-- `isinstance(x, dict)`. -/
def UVal.isDictInst : UVal → Bool
  | .obj true _ => true
  | _ => false

/-- Truthiness of a `UVal` (non-dict objects are truthy; a dict is truthy
when non-empty). -/
def UVal.truthy : UVal → Bool
  | .v x => pyTruthy x
  | .obj true fs => !fs.isEmpty
  | .obj false _ => true

/-- `getattr(u, name, None)`: attribute lookup succeeds only on
attribute-bearing objects; dicts do not expose their keys as attributes. -/
def ugetattr (u : UVal) (name : String) : UVal :=
  match u with
  | .obj false fs =>
    match fs.lookup name with
    | Option.some x => x
    | Option.none => .v .none
  | _ => .v .none

/-- `u.get(name)` on a dict (the source only calls it under an
`isinstance(u, dict)` guard). -/
def udictGet (u : UVal) (name : String) : UVal :=
  match u with
  | .obj true fs =>
    match fs.lookup name with
    | Option.some x => x
    | Option.none => .v .none
  | _ => .v .none

/-- Model of Python `int(v)`: `Option.none` models a raised
`TypeError`/`ValueError`. -/
def pyIntOfStr (s : String) : Option Int :=
  let cs := ((s.toList.dropWhile Char.isWhitespace).reverse.dropWhile Char.isWhitespace).reverse
  match cs with
  | '-' :: ds =>
    if !ds.isEmpty && ds.all Char.isDigit then Option.some (-(Int.ofNat (digitsToNat ds)))
    else Option.none
  | '+' :: ds =>
    if !ds.isEmpty && ds.all Char.isDigit then Option.some (Int.ofNat (digitsToNat ds))
    else Option.none
  | ds =>
    if !ds.isEmpty && ds.all Char.isDigit then Option.some (Int.ofNat (digitsToNat ds))
    else Option.none

/-- `int(v)` over the value model. -/
def pyInt : PyValue → Option Int
  | .int n => Option.some n
  | .bool b => Option.some (if b then 1 else 0)
  | .str s => pyIntOfStr s
  | _ => Option.none

/-- `_safe_int` (provider `__init__.py` lines 664-668): `None` maps to 0,
a failed `int()` conversion maps to 0. -/
def usafeInt : UVal → Int
  | .v .none => 0
  | .v x => (pyInt x).getD 0
  | .obj _ _ => 0

/-- The usage record assembled by `_extract_usage`. -/
structure Usage where
  input : Int
  output : Int
  total : Int
  cachedInputTokens : Option Int
  reasoningOutputTokens : Option Int

/-- The three-step lookup used for `input`/`output` tokens: current field
name via `getattr`, then dict `.get`, then legacy field name via
`getattr`. -/
def chainLookup (u : UVal) (current legacy : String) : UVal :=
  let x := ugetattr u current
  let x := if x.isNone && u.isDictInst then udictGet u current else x
  if x.isNone then ugetattr u legacy else x

/-- The two-step lookup (no legacy name): `getattr` then dict `.get`. -/
def chainLookup2 (u : UVal) (current : String) : UVal :=
  let x := ugetattr u current
  if x.isNone && u.isDictInst then udictGet u current else x

/-- `_extract_usage` (provider `__init__.py` lines 661-723). -/
def extractUsage (response : UVal) : Usage :=
  let usageObj : UVal :=
    match response with
    | .obj _ fs =>
      match fs.lookup "usage" with
      | Option.some u => u
      | Option.none => .v .none
    | _ => .v .none
  if usageObj.isNone then ⟨0, 0, 0, Option.none, Option.none⟩
  else
    let inputV := chainLookup usageObj "input_tokens" "prompt_tokens"
    let outputV := chainLookup usageObj "output_tokens" "completion_tokens"
    let totalV := chainLookup2 usageObj "total_tokens"
    let base : Usage := ⟨usafeInt inputV, usafeInt outputV, usafeInt totalV, Option.none, Option.none⟩
    let inDetails := chainLookup2 usageObj "input_tokens_details"
    let base :=
      if inDetails.truthy then
        let cached := chainLookup2 inDetails "cached_tokens"
        if !cached.isNone then { base with cachedInputTokens := Option.some (usafeInt cached) }
        else base
      else base
    let outDetails := chainLookup2 usageObj "output_tokens_details"
    if outDetails.truthy then
      let r := chainLookup2 outDetails "reasoning_tokens"
      if !r.isNone then { base with reasoningOutputTokens := Option.some (usafeInt r) }
      else base
    else base

/- ### Provider `mount` and orchestrator `_get_provider` -/

/-- Outcome of the provider module's `mount` coroutine. -/
inductive MountOutcome where
  | notMounted
  | mounted (apiKey : PyValue)
  | raised (msg : String)

/-- `mount` (provider `__init__.py` lines 33-68): resolve the key from
config with an environment fallback, and if it is falsy log a warning and
return `None` without mounting and without raising; otherwise construct the
provider and mount it under `providers`. -/
def mount (config : List (String × PyValue)) (env : List (String × String)) : MountOutcome :=
  let envKey : PyValue :=
    match env.lookup "OPENAI_API_KEY" with
    | Option.some s => .str s
    | Option.none => .none
  let apiKey := pyOr (pyGet config "api_key") envKey
  if !pyTruthy apiKey then .notMounted
  else .mounted apiKey

/-- `CodingOrchestrator._get_provider` (orchestrator `__init__.py` lines
129-135): raise `ValueError` when the providers dict is empty, otherwise
return its first value. -/
def getProvider {α : Type} (providers : List (String × α)) : Except String α :=
  match providers with
  | [] => .error "No providers available"
  | (_, p) :: _ => .ok p

/- ### Canonical message model

Modelled from the spec: the `Message`/`ContentBlock` data model lives in
`amplifier_core.message_models`, which is not under `src/`; §3 of the spec
defines it (roles, the four block variants, string-or-blocks content). -/

/-- Message roles (spec §3). -/
inductive Role where
  | user
  | assistant
  | system
  | developer
  | function

/-- Content blocks (spec §3): `Text`, `Reasoning` with an opaque
continuity token and a summary, `ToolCall`, and `ToolResult`. -/
inductive ContentBlock where
  | text (text : String)
  | reasoning (continuityToken : Option String) (summary : List String)
  | toolCall (id name : String) (input : PyValue)
  | toolResult (toolCallId : String) (output : String)

/-- Message content: a plain string or an ordered block sequence (spec §3). -/
inductive MsgContent where
  | ofString (s : String)
  | blocks (bs : List ContentBlock)

/-- A conversation message (spec §3). -/
structure Message where
  role : Role
  content : MsgContent

/-- The block sequence of a message (empty for plain-string content). -/
def MsgContent.blocksOf : MsgContent → List ContentBlock
  | .ofString _ => []
  | .blocks bs => bs

/-- Whether a block is a `Reasoning` block. -/
def ContentBlock.isReasoningBlock : ContentBlock → Bool
  | .reasoning _ _ => true
  | _ => false

/-- Whether a message carries a `Reasoning` block. -/
def Message.hasReasoning (m : Message) : Bool :=
  m.content.blocksOf.any ContentBlock.isReasoningBlock

/- ### `CodingContextManager`

`get_messages` returns `self.messages.copy()`, so aliasing matters: we give
the manager an explicit heap semantics.  A heap is a list of list objects;
the manager's stored list lives at one index, `copy()` allocates a fresh
index. -/

/-- What the context list stores: a `Message` object, or a raw dict that
was appended unconverted (the `add_message` backward-compatibility hack
only converts dicts whose role is `"system"`). -/
inductive StoredMsg where
  | msg (m : Message)
  | rawDict (fields : List (String × PyValue))

/-- A heap of list objects; a reference is an index. -/
abbrev Heap : Type := List (List StoredMsg)

/-- Read the list object at a reference. -/
def heapGet (h : Heap) (r : Nat) : List StoredMsg :=
  (List.getD h r [])

/-- Overwrite the list object at a reference. -/
def heapSet (h : Heap) (r : Nat) (v : List StoredMsg) : Heap :=
  List.set h r v

/-- The conversion in `add_message` (context `__init__.py` lines 24-26):
a dict whose `role` is `"system"` becomes a `Message` with that role and
the dict's `content` (stringified), any other input is kept as-is. -/
def normalizeIncoming : StoredMsg → StoredMsg
  | .rawDict fs =>
    match pyGet fs "role" with
    | .str s =>
      if s = "system" then
        let contentV : PyValue :=
          match fs.lookup "content" with
          | Option.some v => v
          | Option.none => .str ""
        .msg ⟨.system, .ofString (pyStr contentV)⟩
      else .rawDict fs
    | _ => .rawDict fs
  | .msg m => .msg m

/-- `add_message` (context `__init__.py` lines 22-29): normalize, then
append exactly one entry at the end of the stored list. -/
def addMessage (h : Heap) (r : Nat) (m : StoredMsg) : Heap :=
  heapSet h r (heapGet h r ++ [normalizeIncoming m])

/-- `get_messages` (context `__init__.py` lines 31-33):
`self.messages.copy()` allocates a fresh list object with the same
elements and returns a reference to it. -/
def getMessages (h : Heap) (r : Nat) : Heap × Nat :=
  (h ++ [heapGet h r], h.length)

/-- `clear` (context `__init__.py` lines 43-46). -/
def clear (h : Heap) (r : Nat) : Heap :=
  heapSet h r []

/-- In-place operations a caller could perform on a list it holds. -/
inductive ListMutation where
  | setAt (i : Nat) (m : StoredMsg)
  | push (m : StoredMsg)
  | removeAt (i : Nat)
  | wipe

/-- Apply one in-place mutation to the list object at `ref`. -/
def applyMutation (h : Heap) (ref : Nat) : ListMutation → Heap
  | .setAt i m => heapSet h ref ((heapGet h ref).set i m)
  | .push m => heapSet h ref (heapGet h ref ++ [m])
  | .removeAt i => heapSet h ref ((heapGet h ref).take i ++ (heapGet h ref).drop (i + 1))
  | .wipe => heapSet h ref []

/-- Apply a sequence of in-place mutations to the list object at `ref`. -/
def applyMutations (h : Heap) (ref : Nat) (ms : List ListMutation) : Heap :=
  ms.foldl (fun h2 mu => applyMutation h2 ref mu) h

/- ### Tool executor: `CodingOrchestrator._execute_tool` -/

/-- Modelled from the spec: `amplifier_core.ToolResult` (not under `src/`)
as used by the orchestrator: a success flag, an output payload and an
error payload (the orchestrator builds errors as `message` dicts). -/
structure ToolResult where
  success : Bool
  output : PyValue
  error : PyValue

/-- Modelled from the spec: `amplifier_core.message_models.ToolCall` (not
under `src/`): `id`, `name` and structured `arguments`. -/
structure ToolCallRec where
  id : String
  name : String
  arguments : PyValue

/-- Modelled from the spec: a registered tool (spec §6 tool contract):
description, input schema, and an `execute` that may raise
(`Except.error` carries `str(e)`). -/
structure Tool where
  description : String
  inputSchema : PyValue
  execute : PyValue → Except String ToolResult

/-- Modelled from the spec: the hook registry's `emit`, keyed by event
name; `Except.error` models an emission that raises. -/
def Hooks : Type := String → Except String Unit

/-- Observable events of one `_execute_tool` run: each `hooks.emit` call
site reached, and each `tool.execute` invocation. -/
inductive ToolEvent where
  | emit (event : String)
  | invoke (toolName : String)

/-- Whether an event is a tool invocation. -/
def ToolEvent.isInvoke : ToolEvent → Bool
  | .invoke _ => true
  | _ => false

/-- The error message for a missing tool (orchestrator line 160). -/
def toolNotFoundMsg (name : String) : String :=
  "Tool " ++ String.singleton sq ++ name ++ String.singleton sq ++ " not found"

/-- The `try` body of `_execute_tool` (orchestrator lines 147-184): emit
`tool:pre`, look the tool up (absent: synthesize a failed result and emit
`tool:error`), otherwise invoke it and emit `tool:post`.  An `Except.error`
is an exception leaving the `try` body. -/
def executeToolInner (hooks : Hooks) (tools : List (String × Tool)) (tc : ToolCallRec) :
    Except String ToolResult × List ToolEvent :=
  match hooks "tool:pre" with
  | .error e => (.error e, [.emit "tool:pre"])
  | .ok _ =>
    match tools.lookup tc.name with
    | Option.none =>
      let errorResult : ToolResult := ⟨false, .none, .dict [("message", .str (toolNotFoundMsg tc.name))]⟩
      match hooks "tool:error" with
      | .error e => (.error e, [.emit "tool:pre", .emit "tool:error"])
      | .ok _ => (.ok errorResult, [.emit "tool:pre", .emit "tool:error"])
    | Option.some tool =>
      match tool.execute tc.arguments with
      | .error e => (.error e, [.emit "tool:pre", .invoke tc.name])
      | .ok result =>
        match hooks "tool:post" with
        | .error e => (.error e, [.emit "tool:pre", .invoke tc.name, .emit "tool:post"])
        | .ok _ => (.ok result, [.emit "tool:pre", .invoke tc.name, .emit "tool:post"])

/-- `_execute_tool` (orchestrator lines 145-197): the `try` body plus the
`except Exception` handler, which synthesizes a failed result and emits
`tool:error` — the handler's own emission is not protected, so a raise
there leaves `_execute_tool` as `Except.error`. -/
def executeTool (hooks : Hooks) (tools : List (String × Tool)) (tc : ToolCallRec) :
    Except String ToolResult × List ToolEvent :=
  match executeToolInner hooks tools tc with
  | (.ok r, log) => (.ok r, log)
  | (.error e, log) =>
    let errorResult : ToolResult := ⟨false, .none, .dict [("message", .str e)]⟩
    match hooks "tool:error" with
    | .error e2 => (.error e2, log ++ [.emit "tool:error"])
    | .ok _ => (.ok errorResult, log ++ [.emit "tool:error"])

/- ### Orchestration loop: `CodingOrchestrator.execute` -/

/-- Modelled from the spec: `ToolSpec` (spec §3). -/
structure ToolSpec where
  name : String
  description : String
  parameters : PyValue

/-- Modelled from the spec: `ChatRequest` (spec §3): full message history
plus the tool-spec set for that call. -/
structure ChatRequest where
  messages : List Message
  tools : List ToolSpec

/-- Modelled from the spec: `ChatResponse` (spec §3) as consumed by the
orchestrator: content blocks and the derived tool-call list (the code
reads `response.tool_calls or []`). -/
structure ChatResponse where
  content : List ContentBlock
  toolCalls : Option (List ToolCallRec)

/-- A provider: a scripted function of the call index (number of previous
calls in this session) and the request. -/
def Provider : Type := Nat → ChatRequest → ChatResponse

/-- `response.tool_calls or []`. -/
def respToolCalls (r : ChatResponse) : List ToolCallRec :=
  match r.toolCalls with
  | Option.some l => l
  | Option.none => []

/-- `_extract_text` (orchestrator lines 137-143): collect the texts of the
`Text` blocks and join them with blank lines. -/
def extractText (blocks : List ContentBlock) : String :=
  let textParts := blocks.filterMap fun b =>
    match b with
    | .text t => Option.some t
    | _ => Option.none
  if textParts.isEmpty then "" else String.intercalate "\n\n" textParts

/-- The output string placed in each `function` message (orchestrator line
124): `str(result.output)` on success, `f"Error: {result.error}"` on
failure. -/
def toolOutputString (r : ToolResult) : String :=
  if r.success then pyStr r.output else "Error: " ++ pyStr r.error

/-- The `function`-role messages appended after a tool round (orchestrator
lines 123-127): one per call, in request order, each correlated to its
call by `tool_call_id`. -/
def functionMessages (toolCalls : List ToolCallRec) (results : List ToolResult) : List Message :=
  (toolCalls.zip results).map fun p =>
    ⟨.function, .blocks [.toolResult p.1.id (toolOutputString p.2)]⟩

/-- Orchestrator configuration (orchestrator lines 46-52). -/
structure OrchestratorConfig where
  maxIterations : Nat
  maxIterationsMessage : String

/-- The observable session state threaded through the loop: the message
history owned by the context manager, and the trace of provider requests
issued so far (in order). -/
structure ExecState where
  history : List Message
  calls : List ChatRequest

/-- The `while True` body of `execute` (orchestrator lines 80-127).  The
source tracks an increasing `iteration` compared against
`max_iterations`; we recurse on the remaining budget
`remaining = max_iterations - iteration`, so the guard
`iteration >= self.max_iterations` is `remaining = 0`.  The forced-final
branch appends the synthetic user message, issues one call with an empty
tool set, appends one assistant message carrying the extracted text, and
returns; the normal branch issues a call with the full tool set, returns
on a response without tool calls, and otherwise appends the tool-call
assistant message, runs all tools, appends the function messages in
request order and loops. -/
def execLoop (prov : Provider) (toolsR : List (String × Tool)) (hooks : Hooks)
    (toolSpecs : List ToolSpec) (maxIterMsg : String) :
    Nat → ExecState → Except String (String × ExecState)
  | 0, st =>
    let history1 := st.history ++ [⟨.user, .blocks [.text maxIterMsg]⟩]
    let request : ChatRequest := ⟨history1, []⟩
    let response := prov st.calls.length request
    let textContent := extractText response.content
    let history2 := history1 ++ [⟨.assistant, .blocks [.text textContent]⟩]
    .ok (textContent, ⟨history2, st.calls ++ [request]⟩)
  | remaining + 1, st =>
    let request : ChatRequest := ⟨st.history, toolSpecs⟩
    let response := prov st.calls.length request
    let calls1 := st.calls ++ [request]
    let toolCalls := respToolCalls response
    if toolCalls.isEmpty then
      let textContent := extractText response.content
      .ok (textContent, ⟨st.history ++ [⟨.assistant, .blocks [.text textContent]⟩], calls1⟩)
    else
      let history1 := st.history ++
        [⟨.assistant, .blocks (toolCalls.map fun tc => .toolCall tc.id tc.name tc.arguments)⟩]
      match toolCalls.mapM (fun tc => (executeTool hooks toolsR tc).1) with
      | .error e => .error e
      | .ok results =>
        let history2 := history1 ++ functionMessages toolCalls results
        execLoop prov toolsR hooks toolSpecs maxIterMsg remaining ⟨history2, calls1⟩

/-- The tool specs built once from the registry (orchestrator lines
68-75). -/
def toolSpecsOf (toolsR : List (String × Tool)) : List ToolSpec :=
  toolsR.map fun p => ⟨p.1, p.2.description, p.2.inputSchema⟩

/-- `execute` (orchestrator lines 54-127): append the user prompt, build
the tool specs, and run the loop from `iteration = 0` on an empty call
trace. -/
def execute (cfg : OrchestratorConfig) (prompt : String) (prov : Provider)
    (toolsR : List (String × Tool)) (hooks : Hooks) : Except String (String × ExecState) :=
  let history0 : List Message := [⟨.user, .blocks [.text prompt]⟩]
  execLoop prov toolsR hooks (toolSpecsOf toolsR) cfg.maxIterationsMessage
    cfg.maxIterations ⟨history0, []⟩

/-- The final text of a loop outcome (`Option.none` on a propagated
exception). -/
def resultText (r : Except String (String × ExecState)) : Option String :=
  match r with
  | .ok (t, _) => Option.some t
  | .error _ => Option.none

/-- The final history of a loop outcome. -/
def resultHistory (r : Except String (String × ExecState)) : Option (List Message) :=
  match r with
  | .ok (_, st) => Option.some st.history
  | .error _ => Option.none

/-- The provider-call trace of a loop outcome. -/
def resultCalls (r : Except String (String × ExecState)) : Option (List ChatRequest) :=
  match r with
  | .ok (_, st) => Option.some st.calls
  | .error _ => Option.none

/- ### A scheduler model for `asyncio.gather`

`execute` dispatches the tool tasks concurrently and relies on
`asyncio.gather` returning results positionally.  We model a run of the
gather as a list of completion events `(task index, task value)` emitted in
an arbitrary completion order, and the executor assembling the result list
by task index. -/

/-- The completion events of one gather: the tasks complete in the order
given by `order`, each event carrying the task's index and value. -/
def completionEvents {α : Type} (tasks : List α) (order : List Nat) : List (Nat × α) :=
  order.filterMap fun i => (tasks[i]?).map fun v => (i, v)

/-- Assemble gather results positionally from completion events:
slot `i` gets the value of the event whose index is `i`. -/
def assembleInOrder {α : Type} (n : Nat) (events : List (Nat × α)) : List (Option α) :=
  (List.range n).map fun i => (events.find? fun e => e.1 == i).map fun e => e.2

/-- A scripted provider whose first response carries a `Reasoning` block
(with a continuity token) alongside a tool call, and whose second response
is a plain final text. -/
def c2Provider : Provider := fun n _ =>
  if n = 0 then
    ⟨[.reasoning (Option.some "tok-bytes") ["sum"], .text "thinking"],
     Option.some [⟨"c1", "t1", PyValue.dict []⟩]⟩
  else ⟨[.text "done"], Option.none⟩

/-- A run of `execute` against `c2Provider` with an empty tool registry
and non-raising hooks. -/
def c2Run : Except String (String × ExecState) :=
  execute ⟨2, "max-msg"⟩ "p" c2Provider [] (fun _ => .ok ())

/-! ## Helper lemmas -/

/-- Writing one heap cell leaves every other cell unchanged. -/
theorem heapGet_heapSet_ne (h : Heap) (r ref : Nat) (v : List StoredMsg) (hne : r ≠ ref) :
    heapGet (heapSet h ref v) r = heapGet h r := by
  simp only [heapGet, heapSet, List.getD_eq_getElem?_getD]
  rw [List.getElem?_set_ne (fun he => hne he.symm)]

/-- Writing an in-range heap cell stores the value. -/
theorem heapGet_heapSet_self (h : Heap) (r : Nat) (v : List StoredMsg) (hr : r < h.length) :
    heapGet (heapSet h r v) r = v := by
  simp only [heapGet, heapSet, List.getD_eq_getElem?_getD]
  rw [List.getElem?_set_self hr]
  rfl

/-- Extending the heap does not change existing cells. -/
theorem heapGet_append_lt (h : Heap) (r : Nat) (v : List StoredMsg) (hr : r < h.length) :
    heapGet (h ++ [v]) r = heapGet h r := by
  simp only [heapGet, List.getD_eq_getElem?_getD]
  rw [List.getElem?_append_left hr]

/-- The freshly appended heap cell holds its value. -/
theorem heapGet_append_self (h : Heap) (v : List StoredMsg) :
    heapGet (h ++ [v]) h.length = v := by
  simp only [heapGet, List.getD_eq_getElem?_getD]
  rw [List.getElem?_append_right (Nat.le_refl _)]
  simp

/-- A single in-place mutation of the list object at `ref` leaves every
other reference's list unchanged. -/
theorem applyMutation_preserve (h : Heap) (r ref : Nat) (mu : ListMutation) (hne : r ≠ ref) :
    heapGet (applyMutation h ref mu) r = heapGet h r := by
  cases mu <;> simp only [applyMutation] <;> exact heapGet_heapSet_ne _ _ _ _ hne

/-- A sequence of in-place mutations of the list object at `ref` leaves
every other reference's list unchanged. -/
theorem applyMutations_preserve (ms : List ListMutation) (h : Heap) (r ref : Nat) (hne : r ≠ ref) :
    heapGet (applyMutations h ref ms) r = heapGet h r := by
  induction ms generalizing h with
  | nil => rfl
  | cons mu ms ih =>
    show heapGet (applyMutations (applyMutation h ref mu) ref ms) r = heapGet h r
    rw [ih (applyMutation h ref mu), applyMutation_preserve _ _ _ _ hne]

/-- When the `tool:error` emission does not raise, `_execute_tool` always
returns a `ToolResult`: every exception of the `try` body is converted by
the handler. -/
theorem executeTool_isOk (hooks : Hooks) (tools : List (String × Tool)) (tc : ToolCallRec)
    (herr : hooks "tool:error" = .ok ()) :
    ((executeTool hooks tools tc).1).isOk = true := by
  unfold executeTool
  rcases hinner : executeToolInner hooks tools tc with ⟨res, log⟩
  cases res with
  | ok r => rfl
  | error e => rw [herr]; rfl

/-- A `mapM` over `Except` whose elements all succeed succeeds. -/
theorem mapM_ok_of_forall {α β : Type} (f : α → Except String β) (l : List α)
    (h : ∀ a ∈ l, (f a).isOk = true) : ∃ bs, l.mapM f = .ok bs := by
  induction l with
  | nil => exact ⟨[], rfl⟩
  | cons a as ih =>
    have ha := h a (by simp)
    rcases hfa : f a with e | b
    · rw [hfa] at ha; simp [Except.isOk, Except.toBool] at ha
    · obtain ⟨bs, hbs⟩ := ih fun x hx => h x (by simp [hx])
      refine ⟨b :: bs, ?_⟩
      rw [List.mapM_cons]
      simp only [hfa, hbs]
      rfl

/-- A loop step whose response carries no tool calls appends one assistant
message with the extracted text and returns it. -/
theorem execLoop_step_notools (prov : Provider) (toolsR : List (String × Tool)) (hooks : Hooks)
    (toolSpecs : List ToolSpec) (maxMsg : String) (remaining : Nat) (st : ExecState)
    (h : respToolCalls (prov st.calls.length ⟨st.history, toolSpecs⟩) = []) :
    execLoop prov toolsR hooks toolSpecs maxMsg (remaining + 1) st
      = .ok (extractText ((prov st.calls.length ⟨st.history, toolSpecs⟩).content),
          ⟨st.history ++ [⟨.assistant, .blocks
              [.text (extractText ((prov st.calls.length ⟨st.history, toolSpecs⟩).content))]⟩],
           st.calls ++ [⟨st.history, toolSpecs⟩]⟩) := by
  simp only [execLoop, h]
  rfl

/-- A loop step whose response carries tool calls and whose tool round
raises propagates the exception. -/
theorem execLoop_step_tools_error (prov : Provider) (toolsR : List (String × Tool)) (hooks : Hooks)
    (toolSpecs : List ToolSpec) (maxMsg : String) (remaining : Nat) (st : ExecState)
    (tcs : List ToolCallRec) (e : String)
    (h : respToolCalls (prov st.calls.length ⟨st.history, toolSpecs⟩) = tcs)
    (hne : tcs ≠ [])
    (hres : tcs.mapM (fun tc => (executeTool hooks toolsR tc).1) = .error e) :
    execLoop prov toolsR hooks toolSpecs maxMsg (remaining + 1) st = .error e := by
  cases tcs with
  | nil => exact absurd rfl hne
  | cons a as =>
    simp only [execLoop, h, hres, List.isEmpty_cons, Bool.false_eq_true, if_false]

/-- A loop step whose response carries tool calls appends the tool-call
assistant message and the function messages, records the request, and
continues with one less remaining iteration. -/
theorem execLoop_step_tools (prov : Provider) (toolsR : List (String × Tool)) (hooks : Hooks)
    (toolSpecs : List ToolSpec) (maxMsg : String) (remaining : Nat) (st : ExecState)
    (tcs : List ToolCallRec) (results : List ToolResult)
    (h : respToolCalls (prov st.calls.length ⟨st.history, toolSpecs⟩) = tcs)
    (hne : tcs ≠ [])
    (hres : tcs.mapM (fun tc => (executeTool hooks toolsR tc).1) = .ok results) :
    execLoop prov toolsR hooks toolSpecs maxMsg (remaining + 1) st
      = execLoop prov toolsR hooks toolSpecs maxMsg remaining
          ⟨st.history
             ++ [⟨.assistant, .blocks (tcs.map fun tc => .toolCall tc.id tc.name tc.arguments)⟩]
             ++ functionMessages tcs results,
           st.calls ++ [⟨st.history, toolSpecs⟩]⟩ := by
  cases tcs with
  | nil => exact absurd rfl hne
  | cons a as =>
    simp only [execLoop, h, hres, List.isEmpty_cons, Bool.false_eq_true, if_false]

/-- Against a provider that always requests tools, the loop burns its whole
remaining budget (one full-tool call per unit), then issues exactly one
forced-final call with an empty tool set whose request ends with the
synthetic user message, and returns that response's extracted text. -/
theorem execLoop_allTools (prov : Provider) (toolsR : List (String × Tool)) (hooks : Hooks)
    (toolSpecs : List ToolSpec) (maxMsg : String)
    (hprov : ∀ n req, respToolCalls (prov n req) ≠ [])
    (herr : hooks "tool:error" = .ok ()) :
    ∀ (remaining : Nat) (st : ExecState),
      ∃ text hist2 newCalls lastReq,
        execLoop prov toolsR hooks toolSpecs maxMsg remaining st
          = .ok (text, ⟨hist2, st.calls ++ (newCalls ++ [lastReq])⟩)
        ∧ newCalls.length = remaining
        ∧ (∀ r ∈ newCalls, r.tools = toolSpecs)
        ∧ lastReq.tools = []
        ∧ (∃ pre, lastReq.messages = pre ++ [⟨.user, .blocks [.text maxMsg]⟩])
        ∧ text = extractText ((prov (st.calls.length + remaining) lastReq).content) := by
  intro remaining
  induction remaining with
  | zero =>
    intro st
    set req : ChatRequest :=
      ⟨st.history ++ [⟨Role.user, MsgContent.blocks [ContentBlock.text maxMsg]⟩], []⟩ with hreq
    set txt : String := extractText ((prov st.calls.length req).content) with htxt
    refine ⟨txt,
      (st.history ++ [⟨Role.user, MsgContent.blocks [ContentBlock.text maxMsg]⟩])
        ++ [⟨Role.assistant, MsgContent.blocks [ContentBlock.text txt]⟩],
      [], req, ?_, rfl, by simp, rfl, ⟨st.history, rfl⟩, rfl⟩
    simp only [execLoop]
    rfl
  | succ n ih =>
    intro st
    obtain ⟨results, hres⟩ := mapM_ok_of_forall
      (fun tc => (executeTool hooks toolsR tc).1)
      (respToolCalls (prov st.calls.length ⟨st.history, toolSpecs⟩))
      (fun tc _ => executeTool_isOk hooks toolsR tc herr)
    obtain ⟨text, hist2, nc, lr, heq, hlen, htools, hlr, hpre, htext⟩ :=
      ih ⟨st.history
            ++ [⟨.assistant, .blocks ((respToolCalls (prov st.calls.length ⟨st.history, toolSpecs⟩)).map
                  fun tc => .toolCall tc.id tc.name tc.arguments)⟩]
            ++ functionMessages (respToolCalls (prov st.calls.length ⟨st.history, toolSpecs⟩)) results,
          st.calls ++ [⟨st.history, toolSpecs⟩]⟩
    refine ⟨text, hist2, ⟨st.history, toolSpecs⟩ :: nc, lr, ?_, by simp [hlen], ?_, hlr, hpre, ?_⟩
    · rw [execLoop_step_tools prov toolsR hooks toolSpecs maxMsg n st _ results rfl
        (hprov st.calls.length ⟨st.history, toolSpecs⟩) hres, heq]
      simp
    · intro r hr
      rcases List.mem_cons.mp hr with hh | hh
      · rw [hh]
      · exact htools r hh
    · rw [htext]
      have hidx : (st.calls ++ [(⟨st.history, toolSpecs⟩ : ChatRequest)]).length + n
          = st.calls.length + (n + 1) := by simp; omega
      rw [hidx]

/-- Against a provider whose responses request tools for the first `j`
calls of this run and none on call `j`, a loop with enough remaining budget
issues exactly `j + 1` calls, all with the full tool set, and returns the
extracted text of the last response. -/
theorem execLoop_stopsAt (prov : Provider) (toolsR : List (String × Tool)) (hooks : Hooks)
    (toolSpecs : List ToolSpec) (maxMsg : String)
    (herr : hooks "tool:error" = .ok ()) :
    ∀ (j : Nat) (remaining : Nat) (st : ExecState),
      j + 1 ≤ remaining →
      (∀ m req, m < j → respToolCalls (prov (st.calls.length + m) req) ≠ []) →
      (∀ req, respToolCalls (prov (st.calls.length + j) req) = []) →
      ∃ hist2 newCalls lastCall,
        execLoop prov toolsR hooks toolSpecs maxMsg remaining st
          = .ok (extractText ((prov (st.calls.length + j) lastCall).content),
              ⟨hist2, st.calls ++ (newCalls ++ [lastCall])⟩)
        ∧ newCalls.length = j
        ∧ (∀ r ∈ newCalls, r.tools = toolSpecs)
        ∧ lastCall.tools = toolSpecs := by
  intro j
  induction j with
  | zero =>
    intro remaining st hrem hbefore hstop
    cases remaining with
    | zero => omega
    | succ r =>
      rw [execLoop_step_notools prov toolsR hooks toolSpecs maxMsg r st
        (hstop ⟨st.history, toolSpecs⟩)]
      exact ⟨_, [], ⟨st.history, toolSpecs⟩, rfl, rfl, by simp, rfl⟩
  | succ jj ih =>
    intro remaining st hrem hbefore hstop
    cases remaining with
    | zero => omega
    | succ r =>
      have htc0 : respToolCalls (prov st.calls.length ⟨st.history, toolSpecs⟩) ≠ [] := by
        have := hbefore 0 ⟨st.history, toolSpecs⟩ (by omega)
        simpa using this
      obtain ⟨results, hres⟩ := mapM_ok_of_forall
        (fun tc => (executeTool hooks toolsR tc).1)
        (respToolCalls (prov st.calls.length ⟨st.history, toolSpecs⟩))
        (fun tc _ => executeTool_isOk hooks toolsR tc herr)
      have hbefore2 : ∀ m req, m < jj →
          respToolCalls (prov ((st.calls ++ [(⟨st.history, toolSpecs⟩ : ChatRequest)]).length + m) req) ≠ [] := by
        intro m req hm
        have hidx : (st.calls ++ [(⟨st.history, toolSpecs⟩ : ChatRequest)]).length + m
            = st.calls.length + (m + 1) := by simp; omega
        rw [hidx]
        exact hbefore (m + 1) req (by omega)
      have hstop2 : ∀ req,
          respToolCalls (prov ((st.calls ++ [(⟨st.history, toolSpecs⟩ : ChatRequest)]).length + jj) req) = [] := by
        intro req
        have hidx : (st.calls ++ [(⟨st.history, toolSpecs⟩ : ChatRequest)]).length + jj
            = st.calls.length + (jj + 1) := by simp; omega
        rw [hidx]
        exact hstop req
      obtain ⟨hist2, nc, lc, heq, hlen, htools, hlast⟩ :=
        ih r ⟨st.history
              ++ [⟨.assistant, .blocks ((respToolCalls (prov st.calls.length ⟨st.history, toolSpecs⟩)).map
                    fun tc => .toolCall tc.id tc.name tc.arguments)⟩]
              ++ functionMessages (respToolCalls (prov st.calls.length ⟨st.history, toolSpecs⟩)) results,
            st.calls ++ [⟨st.history, toolSpecs⟩]⟩
          (by omega) hbefore2 hstop2
      refine ⟨hist2, ⟨st.history, toolSpecs⟩ :: nc, lc, ?_, by simp [hlen], ?_, hlast⟩
      · rw [execLoop_step_tools prov toolsR hooks toolSpecs maxMsg r st _ results rfl htc0 hres,
          heq]
        have hidx : (st.calls ++ [(⟨st.history, toolSpecs⟩ : ChatRequest)]).length + jj
            = st.calls.length + (jj + 1) := by simp; omega
        rw [hidx]
        simp
      · intro q hq
        rcases List.mem_cons.mp hq with hh | hh
        · rw [hh]
        · exact htools q hh

/-- Assistant tool-call messages carry no `Reasoning` block. -/
theorem hasReasoning_toolCallMsg (tcs : List ToolCallRec) :
    Message.hasReasoning ⟨.assistant, .blocks (tcs.map fun tc =>
      ContentBlock.toolCall tc.id tc.name tc.arguments)⟩ = false := by
  simp only [Message.hasReasoning, MsgContent.blocksOf]
  rw [List.any_eq_false]
  intro b hb
  obtain ⟨tc, _, rfl⟩ := List.mem_map.mp hb
  simp [ContentBlock.isReasoningBlock]

/-- Function-result messages carry no `Reasoning` block. -/
theorem functionMessages_noReasoning (tcs : List ToolCallRec) (results : List ToolResult) :
    (functionMessages tcs results).all (fun m => !m.hasReasoning) = true := by
  rw [List.all_eq_true]
  intro m hm
  obtain ⟨p, _, rfl⟩ := List.mem_map.mp hm
  rfl

/-- The loop invariant behind the reasoning-drop behaviour: starting from
a history free of `Reasoning` blocks, every history the loop can return is
free of `Reasoning` blocks — the loop only ever appends plain-text user
and assistant messages, tool-call assistant messages, and tool-result
function messages. -/
theorem execLoop_noReasoning (prov : Provider) (toolsR : List (String × Tool)) (hooks : Hooks)
    (toolSpecs : List ToolSpec) (maxMsg : String) :
    ∀ (remaining : Nat) (st : ExecState) (t : String) (st2 : ExecState),
      st.history.all (fun m => !m.hasReasoning) = true →
      execLoop prov toolsR hooks toolSpecs maxMsg remaining st = .ok (t, st2) →
      st2.history.all (fun m => !m.hasReasoning) = true := by
  intro remaining
  induction remaining with
  | zero =>
    intro st t st2 hall heq
    simp only [execLoop] at heq
    cases heq
    simp only [List.all_append, hall, Bool.true_and]
    rfl
  | succ n ih =>
    intro st t st2 hall heq
    cases htc : respToolCalls (prov st.calls.length ⟨st.history, toolSpecs⟩) with
    | nil =>
      rw [execLoop_step_notools prov toolsR hooks toolSpecs maxMsg n st htc] at heq
      cases heq
      simp only [List.all_append, hall, Bool.true_and]
      rfl
    | cons a as =>
      cases hres : (a :: as).mapM (fun tc => (executeTool hooks toolsR tc).1) with
      | error e =>
        rw [execLoop_step_tools_error prov toolsR hooks toolSpecs maxMsg n st (a :: as) e htc
          (List.cons_ne_nil a as) hres] at heq
        cases heq
      | ok results =>
        rw [execLoop_step_tools prov toolsR hooks toolSpecs maxMsg n st (a :: as) results htc
          (List.cons_ne_nil a as) hres] at heq
        refine ih _ t st2 ?_ heq
        simp only [List.all_append, List.all_cons, List.all_nil, hall,
          hasReasoning_toolCallMsg, functionMessages_noReasoning,
          Bool.not_false, Bool.true_and, Bool.and_true]

/-- Every completion event carries the value of the task at its index. -/
theorem completionEvents_sound {α : Type} (tasks : List α) (order : List Nat)
    (e : Nat × α) (he : e ∈ completionEvents tasks order) : tasks[e.1]? = some e.2 := by
  obtain ⟨i, _, hfi⟩ := List.mem_filterMap.mp he
  rcases hti : tasks[i]? with _ | v
  · rw [hti] at hfi; cases hfi
  · rw [hti] at hfi
    cases hfi
    exact hti

/-- Assembling by task index recovers the task list in task order, for
every completion order that runs each task exactly once: the scheduler's
completion order is irrelevant to the assembled result. -/
theorem assembleInOrder_eq {α : Type} (tasks : List α) (order : List Nat)
    (hperm : order.Perm (List.range tasks.length)) :
    assembleInOrder tasks.length (completionEvents tasks order) = tasks.map Option.some := by
  apply List.ext_getElem?
  intro i
  by_cases hi : i < tasks.length
  · have hiord : i ∈ order := hperm.mem_iff.mpr (List.mem_range.mpr hi)
    have hmem : ((i, tasks.get ⟨i, hi⟩) : Nat × α) ∈ completionEvents tasks order := by
      apply List.mem_filterMap.mpr
      exact ⟨i, hiord, by rw [List.getElem?_eq_getElem hi]; rfl⟩
    have hsome : ((completionEvents tasks order).find? fun e => e.1 == i).isSome = true :=
      List.find?_isSome.mpr ⟨(i, tasks.get ⟨i, hi⟩), hmem, by simp⟩
    rcases hfind : (completionEvents tasks order).find? fun e => e.1 == i with _ | e
    · rw [hfind] at hsome; cases hsome
    · have hp : e.1 = i := by
        have := List.find?_some hfind
        simpa using this
      have hval : tasks[e.1]? = some e.2 :=
        completionEvents_sound tasks order e (List.mem_of_find?_eq_some hfind)
      rw [hp, List.getElem?_eq_getElem hi] at hval
      have hval2 : e.2 = tasks.get ⟨i, hi⟩ := by
        injection hval with h2
        exact h2.symm
      show ((List.range tasks.length).map fun j =>
          ((completionEvents tasks order).find? fun e => e.1 == j).map fun e => e.2)[i]?
        = (tasks.map Option.some)[i]?
      rw [List.getElem?_map, List.getElem?_map, List.getElem?_range hi,
        List.getElem?_eq_getElem hi]
      show some (((completionEvents tasks order).find? fun e => e.1 == i).map fun e => e.2)
        = some (some (tasks.get ⟨i, hi⟩))
      rw [hfind]
      show some (some e.2) = some (some (tasks.get ⟨i, hi⟩))
      rw [hval2]
  · rw [assembleInOrder]
    rw [List.getElem?_eq_none (by simpa using hi), List.getElem?_eq_none (by simpa using hi)]

/-- The `i`-th function message is the `i`-th requested call's result,
correlated by that call's id. -/
theorem functionMessages_getElem (toolCalls : List ToolCallRec) (results : List ToolResult)
    (i : Nat) (hi : i < toolCalls.length) (hi2 : i < results.length) :
    (functionMessages toolCalls results)[i]?
      = some ⟨.function, .blocks [.toolResult (toolCalls.get ⟨i, hi⟩).id
          (toolOutputString (results.get ⟨i, hi2⟩))]⟩ := by
  induction toolCalls generalizing results i with
  | nil => cases hi
  | cons tc tcs ih =>
    cases results with
    | nil => cases hi2
    | cons r rs =>
      cases i with
      | zero => simp [functionMessages]
      | succ j =>
        have hj : j < tcs.length := by simpa using hi
        have hj2 : j < rs.length := by simpa using hi2
        simpa [functionMessages] using ih rs j hj hj2

/-! ## Claims -/

/-- C5 (counterexample): a tool-call wire item whose `arguments` payload is
the unparsable string `"not json"` decodes to the singleton mapping
`value: "not json"`, not to the empty mapping the claim states. -/
theorem C5_counterexample :
    wireItemParsedArguments
        [("type", .str "function_call"), ("call_id", .str "call_1"),
         ("name", .str "t"), ("arguments", .str "not json")]
      = [("value", PyValue.str "not json")]
    ∧ jsonLoads "not json" = Option.none
    ∧ [("value", PyValue.str "not json")] ≠ ([] : List (String × PyValue)) :=
  ⟨rfl, rfl, fun h => List.cons_ne_nil _ _ h⟩

/-- C5 (amended): argument parsing never raises; a string payload that
fails JSON decoding decodes to the singleton mapping `value: <raw string>`
(not to an empty mapping), and only a missing/`None` payload decodes to
the empty mapping. -/
theorem C5_malformed_arguments (s : String) (hfail : jsonLoads s = Option.none) :
    parsedToolArguments (.str s) = [("value", PyValue.str s)]
    ∧ parsedToolArguments PyValue.none = [] := by
  constructor
  · simp only [parsedToolArguments, maybeJson, hfail]
    rfl
  · rfl

/-- C5 witness: the amended statement evaluated at the unparsable payload
`"not json"`. -/
theorem C5_malformed_arguments_witness :
    parsedToolArguments (.str "not json") = [("value", PyValue.str "not json")]
    ∧ parsedToolArguments PyValue.none = [] :=
  C5_malformed_arguments "not json" (by rfl)

/-- C6: a tool call whose name is absent from the registry invokes
nothing, does not throw (given the `tool:pre`/`tool:error` emissions
succeed), synthesizes a failed `ToolResult` carrying the not-found
message, and the resulting function-message output begins with
`"Error:"`. -/
theorem C6_unknown_tool (hooks : Hooks) (tools : List (String × Tool)) (tc : ToolCallRec)
    (habsent : tools.lookup tc.name = Option.none)
    (hpre : hooks "tool:pre" = .ok ())
    (herr : hooks "tool:error" = .ok ()) :
    executeTool hooks tools tc
      = (.ok ⟨false, .none, .dict [("message", .str (toolNotFoundMsg tc.name))]⟩,
         [.emit "tool:pre", .emit "tool:error"])
    ∧ (∀ ev ∈ (executeTool hooks tools tc).2, ev.isInvoke = false)
    ∧ (∃ rest, toolOutputString ⟨false, .none, .dict [("message", .str (toolNotFoundMsg tc.name))]⟩
        = "Error:" ++ rest) := by
  have hrun : executeTool hooks tools tc
      = (.ok ⟨false, .none, .dict [("message", .str (toolNotFoundMsg tc.name))]⟩,
         [.emit "tool:pre", .emit "tool:error"]) := by
    simp only [executeTool, executeToolInner, hpre, habsent, herr]
  refine ⟨hrun, ?_, ?_⟩
  · rw [hrun]
    intro ev hev
    simp only [List.mem_cons, List.not_mem_nil, or_false] at hev
    rcases hev with rfl | rfl <;> rfl
  · exact ⟨" " ++ pyStr (.dict [("message", .str (toolNotFoundMsg tc.name))]), rfl⟩

/-- C6 witness: the statement evaluated at a concrete missing tool with
non-raising hooks. -/
theorem C6_unknown_tool_witness :
    executeTool (fun _ => Except.ok ()) [] ⟨"c1", "ghost", PyValue.none⟩
      = (.ok ⟨false, .none, .dict [("message", .str (toolNotFoundMsg "ghost"))]⟩,
         [.emit "tool:pre", .emit "tool:error"])
    ∧ (∀ ev ∈ (executeTool (fun _ => Except.ok ()) [] ⟨"c1", "ghost", PyValue.none⟩).2,
        ev.isInvoke = false)
    ∧ (∃ rest, toolOutputString ⟨false, .none, .dict [("message", .str (toolNotFoundMsg "ghost"))]⟩
        = "Error:" ++ rest) :=
  C6_unknown_tool (fun _ => Except.ok ()) [] ⟨"c1", "ghost", PyValue.none⟩ rfl rfl rfl

/-- C7 (counterexample): when the `tool:error` emission raises, the
exception propagates out of `_execute_tool` (the claim says an emission
failure never propagates): with hooks raising on `tool:error` and a
missing tool, `_execute_tool` is an exception, not a `ToolResult`. -/
theorem C7_counterexample :
    (executeTool (fun e => if e = "tool:error" then .error "hook boom" else .ok ())
        [] ⟨"c1", "ghost", PyValue.none⟩).1
      = .error "hook boom" := by rfl

/-- C7 (amended): `tool:pre`/`tool:post` emission failures and tool
execution failures are caught and converted to a failed `ToolResult`, but
the recovery path itself re-emits `tool:error` unprotected — so
`_execute_tool` is guaranteed to return a `ToolResult` only when the
`tool:error` emission does not raise. -/
theorem C7_no_propagation (hooks : Hooks) (tools : List (String × Tool)) (tc : ToolCallRec)
    (herr : hooks "tool:error" = .ok ()) :
    ((executeTool hooks tools tc).1).isOk = true :=
  executeTool_isOk hooks tools tc herr

/-- C7 witness: the amended statement evaluated at non-raising hooks. -/
theorem C7_no_propagation_witness :
    ((executeTool (fun _ => Except.ok ()) [] ⟨"c1", "ghost", PyValue.none⟩).1).isOk = true :=
  C7_no_propagation (fun _ => Except.ok ()) [] ⟨"c1", "ghost", PyValue.none⟩ rfl

/-- C8: usage extraction never raises and degrades to zeros: a response
without a usage object yields the all-zero record; an SDK-style object
carrying only legacy `prompt_tokens`/`completion_tokens` is read through
the legacy fallback; non-numeric field values collapse to zero; each
numeric field is exactly the safe-int of its lookup chain, and a `None`
or unparsable chain value yields zero. -/
theorem C8_usage_graceful :
    (extractUsage (.v .none) = ⟨0, 0, 0, Option.none, Option.none⟩)
    ∧ (extractUsage (.obj false [("usage", .obj false
          [("prompt_tokens", .v (.int 7)), ("completion_tokens", .v (.int 3))])])
        = ⟨7, 3, 0, Option.none, Option.none⟩)
    ∧ (extractUsage (.obj true [("usage", .obj true
          [("input_tokens", .v (.str "abc")), ("output_tokens", .v (.list [])),
           ("total_tokens", .v .none)])])
        = ⟨0, 0, 0, Option.none, Option.none⟩)
    ∧ (∀ u : UVal, u.isNone = false →
        (extractUsage (.obj false [("usage", u)])).input
            = usafeInt (chainLookup u "input_tokens" "prompt_tokens")
        ∧ (extractUsage (.obj false [("usage", u)])).output
            = usafeInt (chainLookup u "output_tokens" "completion_tokens")
        ∧ (extractUsage (.obj false [("usage", u)])).total
            = usafeInt (chainLookup2 u "total_tokens"))
    ∧ (∀ x : PyValue, pyInt x = Option.none → usafeInt (.v x) = 0)
    ∧ usafeInt (.v .none) = 0 := by
  refine ⟨rfl, rfl, rfl, ?_, ?_, rfl⟩
  · intro u h
    rcases u with x | ⟨isD, fs⟩
    · cases x with
      | none => exact Bool.noConfusion h
      | bool b => exact ⟨rfl, rfl, rfl⟩
      | int n => exact ⟨rfl, rfl, rfl⟩
      | str s => exact ⟨rfl, rfl, rfl⟩
      | list xs => exact ⟨rfl, rfl, rfl⟩
      | dict fs => exact ⟨rfl, rfl, rfl⟩
    · have hobj : (match List.lookup "usage" [("usage", UVal.obj isD fs)] with
          | some u => u
          | none => UVal.v PyValue.none).isNone = false := h
      refine ⟨?_, ?_, ?_⟩ <;>
        (simp only [extractUsage.eq_def]
         rw [hobj]
         simp only [Bool.false_eq_true, if_false]
         split_ifs <;> rfl)
  · intro x hx
    cases x with
    | none => rfl
    | bool b => simp [usafeInt, hx]
    | int n => simp [usafeInt, hx]
    | str s => simp [usafeInt, hx]
    | list xs => simp [usafeInt, hx]
    | dict fs => simp [usafeInt, hx]

/-- C8 witness: the hypothesis-bearing parts evaluated at an empty dict
usage object (all fields missing) and at the unparsable string `"abc"`. -/
theorem C8_usage_graceful_witness :
    (extractUsage (.obj false [("usage", UVal.obj true [])])).input
        = usafeInt (chainLookup (.obj true []) "input_tokens" "prompt_tokens")
    ∧ usafeInt (.v (.str "abc")) = 0 :=
  ⟨(C8_usage_graceful.2.2.2.1 (.obj true []) rfl).1,
   C8_usage_graceful.2.2.2.2.1 (.str "abc") rfl⟩

/-- C9 (code evaluated at the failing input): `mount` with an empty config
and no `OPENAI_API_KEY` in the environment returns `None` without mounting
and without raising — the claim (and `mount`'s own docstring, which says
it raises `ValueError` when the key is missing) calls for a fatal
configuration error; an empty or whitespace-free falsy key behaves the
same.  The second half of the claim holds: with no provider registered,
`_get_provider` raises before any provider call. -/
theorem C9_mount_no_raise :
    mount [] [] = .notMounted
    ∧ mount [("api_key", .str "")] [] = .notMounted
    ∧ getProvider ([] : List (String × Nat)) = .error "No providers available" :=
  ⟨rfl, rfl, rfl⟩

/-- C10: `get_messages` returns a fresh snapshot: the copy holds the same
elements, and no sequence of in-place mutations of the copy changes the
stored history; the stored history itself changes only through
`add_message` (which appends exactly one normalized entry at the end) and
`clear` (which empties it). -/
theorem C10_snapshot (h : Heap) (r : Nat) (hr : r < h.length)
    (muts : List ListMutation) (m : StoredMsg) :
    heapGet (getMessages h r).1 (getMessages h r).2 = heapGet h r
    ∧ heapGet (applyMutations (getMessages h r).1 (getMessages h r).2 muts) r = heapGet h r
    ∧ heapGet (addMessage h r m) r = heapGet h r ++ [normalizeIncoming m]
    ∧ heapGet (clear h r) r = [] := by
  refine ⟨heapGet_append_self h (heapGet h r), ?_, ?_, ?_⟩
  · show heapGet (applyMutations (h ++ [heapGet h r]) h.length muts) r = heapGet h r
    rw [applyMutations_preserve muts (h ++ [heapGet h r]) r h.length (by omega)]
    exact heapGet_append_lt h r (heapGet h r) hr
  · exact heapGet_heapSet_self h r _ hr
  · exact heapGet_heapSet_self h r [] hr

/-- C1: with a provider that always requests tools, `execute` issues
exactly `maxIterations + 1` provider calls: `maxIterations` calls carrying
the full tool-spec set, then one forced-final call (call index
`maxIterations`) whose tool set is empty and whose request ends with the
synthetic max-iterations user message; that response's tool calls are
never consulted and the returned answer is the blank-line-separated
concatenation of its `Text` blocks. -/
theorem C1_forced_final (maxIter : Nat) (prompt maxMsg : String) (prov : Provider)
    (toolsR : List (String × Tool)) (hooks : Hooks)
    (hprov : ∀ n req, respToolCalls (prov n req) ≠ [])
    (herr : hooks "tool:error" = .ok ()) :
    ∃ text hist newCalls lastReq,
      execute ⟨maxIter, maxMsg⟩ prompt prov toolsR hooks
        = .ok (text, ⟨hist, newCalls ++ [lastReq]⟩)
      ∧ newCalls.length = maxIter
      ∧ (∀ r ∈ newCalls, r.tools = toolSpecsOf toolsR)
      ∧ lastReq.tools = []
      ∧ (∃ pre, lastReq.messages = pre ++ [⟨.user, .blocks [.text maxMsg]⟩])
      ∧ text = extractText ((prov maxIter lastReq).content) := by
  obtain ⟨text, hist, nc, lr, heq, hlen, htools, hlr, hpre, htext⟩ :=
    execLoop_allTools prov toolsR hooks (toolSpecsOf toolsR) maxMsg hprov herr maxIter
      ⟨[⟨.user, .blocks [.text prompt]⟩], []⟩
  simp only [List.length_nil, Nat.zero_add] at htext
  exact ⟨text, hist, nc, lr, heq, hlen, htools, hlr, hpre, htext⟩

/-- C1 witness: the statement evaluated at `maxIterations = 2`, a provider
that always requests a (missing) tool, an empty registry, and non-raising
hooks. -/
theorem C1_forced_final_witness :
    ∃ text hist newCalls lastReq,
      execute ⟨2, "wrap-up"⟩ "p"
          (fun _ _ => ⟨[.text "t"], Option.some [⟨"c1", "ghost", PyValue.dict []⟩]⟩)
          [] (fun _ => .ok ())
        = .ok (text, ⟨hist, newCalls ++ [lastReq]⟩)
      ∧ newCalls.length = 2
      ∧ (∀ r ∈ newCalls, r.tools = toolSpecsOf [])
      ∧ lastReq.tools = []
      ∧ (∃ pre, lastReq.messages = pre ++ [⟨.user, .blocks [.text "wrap-up"]⟩])
      ∧ text = extractText
          (((fun (_ : Nat) (_ : ChatRequest) =>
              (⟨[.text "t"], Option.some [⟨"c1", "ghost", PyValue.dict []⟩]⟩ : ChatResponse)) 2
            lastReq).content) :=
  C1_forced_final 2 "p" "wrap-up"
    (fun _ _ => ⟨[.text "t"], Option.some [⟨"c1", "ghost", PyValue.dict []⟩]⟩) []
    (fun _ => .ok ()) (fun _ _ => List.cons_ne_nil _ _) rfl

/-- C2 (counterexample): the first response of `c2Provider` carries a
`Reasoning` block with a continuity token, yet after the run no message of
the final history carries a `Reasoning` block and neither request of the
call trace carries one — in particular request 2's messages omit the token
captured from response 1, so blocks are not preserved and the token is not
passed back. -/
theorem C2_counterexample :
    ((c2Provider 0 ⟨[], []⟩).content.any ContentBlock.isReasoningBlock) = true
    ∧ resultText c2Run = Option.some "done"
    ∧ (resultHistory c2Run).map (fun hist => hist.any Message.hasReasoning)
        = Option.some false
    ∧ (resultCalls c2Run).map (fun cs => cs.map fun req => req.messages.any Message.hasReasoning)
        = Option.some [false, false] :=
  ⟨rfl, rfl, rfl, rfl⟩

/-- C2 (amended): the loop does not preserve response blocks: it appends
only derived messages (plain-text user/assistant messages, tool-call
assistant messages and tool-result function messages), so no history it
returns ever contains a `Reasoning` block and a continuity token is never
replayed to the adapter. -/
theorem C2_reasoning_dropped (cfg : OrchestratorConfig) (prompt : String) (prov : Provider)
    (toolsR : List (String × Tool)) (hooks : Hooks) (t : String) (st : ExecState)
    (hrun : execute cfg prompt prov toolsR hooks = .ok (t, st)) :
    st.history.all (fun m => !m.hasReasoning) = true :=
  execLoop_noReasoning prov toolsR hooks (toolSpecsOf toolsR) cfg.maxIterationsMessage
    cfg.maxIterations ⟨[⟨.user, .blocks [.text prompt]⟩], []⟩ t st (by rfl) hrun

/-- C2 witness: the amended statement evaluated on a concrete one-call
run. -/
theorem C2_reasoning_dropped_witness :
    (([⟨Role.user, MsgContent.blocks [ContentBlock.text "q"]⟩,
       ⟨Role.assistant, MsgContent.blocks [ContentBlock.text "4"]⟩] : List Message).all
      (fun m => !m.hasReasoning)) = true :=
  C2_reasoning_dropped ⟨100, "m"⟩ "q" (fun _ _ => ⟨[.text "4"], Option.none⟩) []
    (fun _ => .ok ()) "4"
    ⟨[⟨Role.user, MsgContent.blocks [ContentBlock.text "q"]⟩,
      ⟨Role.assistant, MsgContent.blocks [ContentBlock.text "4"]⟩],
     [⟨[⟨Role.user, MsgContent.blocks [ContentBlock.text "q"]⟩], []⟩]⟩ (by rfl)

/-- C3: tool results are correlated by task identity, not completion
order: for every completion order that is a permutation of the dispatched
tasks, assembling the gather's completion events by task index yields the
executor results in request order; and the `i`-th function message
appended to history carries the `i`-th requested call's `toolCallId` with
the `i`-th result. -/
theorem C3_request_order (hooks : Hooks) (toolsR : List (String × Tool))
    (toolCalls : List ToolCallRec) (results : List ToolResult) (order : List Nat)
    (hperm : order.Perm (List.range toolCalls.length))
    (hlen : results.length = toolCalls.length) :
    (assembleInOrder (toolCalls.map fun tc => (executeTool hooks toolsR tc).1).length
        (completionEvents (toolCalls.map fun tc => (executeTool hooks toolsR tc).1) order))
      = (toolCalls.map fun tc => (executeTool hooks toolsR tc).1).map Option.some
    ∧ ∀ i, i < toolCalls.length →
        ∃ tc r, toolCalls[i]? = some tc ∧ results[i]? = some r
          ∧ (functionMessages toolCalls results)[i]?
              = some ⟨.function, .blocks [.toolResult tc.id (toolOutputString r)]⟩ := by
  constructor
  · exact assembleInOrder_eq _ order (by simpa using hperm)
  · intro i hi
    have hi2 : i < results.length := by omega
    refine ⟨toolCalls.get ⟨i, hi⟩, results.get ⟨i, hi2⟩, ?_, ?_, ?_⟩
    · exact List.getElem?_eq_getElem hi
    · exact List.getElem?_eq_getElem hi2
    · exact functionMessages_getElem toolCalls results i hi hi2

/-- C3 witness: the statement evaluated at two calls `A, B` with the
completion order `[1, 0]` (B finishes first). -/
theorem C3_request_order_witness :
    (assembleInOrder
        (([⟨"idA", "a", PyValue.none⟩, ⟨"idB", "b", PyValue.none⟩].map
            fun tc => (executeTool (fun _ => Except.ok ()) [] tc).1).length)
        (completionEvents
          ([⟨"idA", "a", PyValue.none⟩, ⟨"idB", "b", PyValue.none⟩].map
            fun tc => (executeTool (fun _ => Except.ok ()) [] tc).1) [1, 0]))
      = ([⟨"idA", "a", PyValue.none⟩, ⟨"idB", "b", PyValue.none⟩].map
          fun tc => (executeTool (fun _ => Except.ok ()) [] tc).1).map Option.some
    ∧ ∀ i, i < ([⟨"idA", "a", PyValue.none⟩, ⟨"idB", "b", PyValue.none⟩] : List ToolCallRec).length →
        ∃ tc r, ([⟨"idA", "a", PyValue.none⟩, ⟨"idB", "b", PyValue.none⟩] : List ToolCallRec)[i]? = some tc
          ∧ ([⟨true, .str "okA", .none⟩, ⟨true, .str "okB", .none⟩] : List ToolResult)[i]? = some r
          ∧ (functionMessages [⟨"idA", "a", PyValue.none⟩, ⟨"idB", "b", PyValue.none⟩]
              [⟨true, .str "okA", .none⟩, ⟨true, .str "okB", .none⟩])[i]?
              = some ⟨.function, .blocks [.toolResult tc.id (toolOutputString r)]⟩ :=
  C3_request_order (fun _ => Except.ok ()) []
    [⟨"idA", "a", PyValue.none⟩, ⟨"idB", "b", PyValue.none⟩]
    [⟨true, .str "okA", .none⟩, ⟨true, .str "okB", .none⟩] [1, 0] (by decide) rfl

/-- C4: a scripted provider that first returns a tool-call-free response
on its `k`-th call (`1 ≤ k ≤ N`) makes `execute` issue exactly `k`
provider calls, each with the full tool-spec set, and return the extracted
`Text` concatenation of that `k`-th response; and on the simplest mock
(single `Text "4"` response, no tool calls) `execute` returns `"4"` with
exactly two history messages, one `user` and one `assistant`. -/
theorem C4_stops_at_k (N k : Nat) (prompt maxMsg : String) (prov : Provider)
    (toolsR : List (String × Tool)) (hooks : Hooks)
    (hk : 1 ≤ k) (hN : k ≤ N)
    (herr : hooks "tool:error" = .ok ())
    (hbefore : ∀ m req, m + 1 < k → respToolCalls (prov m req) ≠ [])
    (hstop : ∀ req, respToolCalls (prov (k - 1) req) = []) :
    (∃ hist newCalls lastCall,
      execute ⟨N, maxMsg⟩ prompt prov toolsR hooks
        = .ok (extractText ((prov (k - 1) lastCall).content), ⟨hist, newCalls ++ [lastCall]⟩)
      ∧ (newCalls ++ [lastCall]).length = k
      ∧ (∀ r ∈ newCalls ++ [lastCall], r.tools = toolSpecsOf toolsR))
    ∧ execute ⟨100, "m"⟩ "2+2?" (fun _ _ => ⟨[.text "4"], Option.none⟩) [] (fun _ => .ok ())
        = .ok ("4", ⟨[⟨Role.user, MsgContent.blocks [ContentBlock.text "2+2?"]⟩,
                      ⟨Role.assistant, MsgContent.blocks [ContentBlock.text "4"]⟩],
                     [⟨[⟨Role.user, MsgContent.blocks [ContentBlock.text "2+2?"]⟩], []⟩]⟩) := by
  constructor
  · have hbefore2 : ∀ m req, m < k - 1 →
        respToolCalls (prov ((⟨[⟨Role.user, MsgContent.blocks [ContentBlock.text prompt]⟩],
          []⟩ : ExecState).calls.length + m) req) ≠ [] := by
      intro m req hm
      have hidx : ((⟨[⟨Role.user, MsgContent.blocks [ContentBlock.text prompt]⟩],
          []⟩ : ExecState).calls.length + m) = m := by simp
      rw [hidx]
      exact hbefore m req (by omega)
    have hstop2 : ∀ req,
        respToolCalls (prov ((⟨[⟨Role.user, MsgContent.blocks [ContentBlock.text prompt]⟩],
          []⟩ : ExecState).calls.length + (k - 1)) req) = [] := by
      intro req
      have hidx : ((⟨[⟨Role.user, MsgContent.blocks [ContentBlock.text prompt]⟩],
          []⟩ : ExecState).calls.length + (k - 1)) = k - 1 := by simp
      rw [hidx]
      exact hstop req
    obtain ⟨hist, nc, lc, heq, hlen, htools, hlast⟩ :=
      execLoop_stopsAt prov toolsR hooks (toolSpecsOf toolsR) maxMsg herr (k - 1) N
        ⟨[⟨Role.user, MsgContent.blocks [ContentBlock.text prompt]⟩], []⟩
        (by omega) hbefore2 hstop2
    simp only [List.length_nil, Nat.zero_add] at heq
    refine ⟨hist, nc, lc, heq, by simp [hlen]; omega, ?_⟩
    intro q hq
    rcases List.mem_append.mp hq with hh | hh
    · exact htools q hh
    · rcases List.mem_cons.mp hh with rfl | hh
      · exact hlast
      · cases hh
  · rfl

/-- C4 witness: the general statement evaluated at `N = 3`, `k = 2`, a
provider that requests a tool once then stops. -/
theorem C4_stops_at_k_witness :
    (∃ hist newCalls lastCall,
      execute ⟨3, "m"⟩ "p"
          (fun n _ => if n = 0 then ⟨[.text "t"], Option.some [⟨"c1", "x", PyValue.none⟩]⟩
                      else ⟨[.text "fin"], Option.none⟩)
          [] (fun _ => .ok ())
        = .ok (extractText
            (((fun (n : Nat) (_ : ChatRequest) =>
                if n = 0 then (⟨[.text "t"], Option.some [⟨"c1", "x", PyValue.none⟩]⟩ : ChatResponse)
                else ⟨[.text "fin"], Option.none⟩) (2 - 1) lastCall).content),
            ⟨hist, newCalls ++ [lastCall]⟩)
      ∧ (newCalls ++ [lastCall]).length = 2
      ∧ (∀ r ∈ newCalls ++ [lastCall], r.tools = toolSpecsOf []))
    ∧ execute ⟨100, "m"⟩ "2+2?" (fun _ _ => ⟨[.text "4"], Option.none⟩) [] (fun _ => .ok ())
        = .ok ("4", ⟨[⟨Role.user, MsgContent.blocks [ContentBlock.text "2+2?"]⟩,
                      ⟨Role.assistant, MsgContent.blocks [ContentBlock.text "4"]⟩],
                     [⟨[⟨Role.user, MsgContent.blocks [ContentBlock.text "2+2?"]⟩], []⟩]⟩) :=
  C4_stops_at_k 3 2 "p" "m"
    (fun n _ => if n = 0 then ⟨[.text "t"], Option.some [⟨"c1", "x", PyValue.none⟩]⟩
                else ⟨[.text "fin"], Option.none⟩)
    [] (fun _ => .ok ()) (by omega) (by omega) rfl
    (fun m req hm => by
      have hm0 : m = 0 := by omega
      subst hm0
      exact List.cons_ne_nil _ _)
    (fun req => rfl)

/-- C10 witness: the statement evaluated at a one-cell heap holding one
message, a wipe mutation of the snapshot, and one appended message. -/
theorem C10_snapshot_witness :
    heapGet (getMessages [[StoredMsg.msg ⟨.user, .ofString "hi"⟩]] 0).1
        (getMessages [[StoredMsg.msg ⟨.user, .ofString "hi"⟩]] 0).2
      = heapGet [[StoredMsg.msg ⟨.user, .ofString "hi"⟩]] 0
    ∧ heapGet (applyMutations (getMessages [[StoredMsg.msg ⟨.user, .ofString "hi"⟩]] 0).1
        (getMessages [[StoredMsg.msg ⟨.user, .ofString "hi"⟩]] 0).2 [ListMutation.wipe]) 0
      = heapGet [[StoredMsg.msg ⟨.user, .ofString "hi"⟩]] 0
    ∧ heapGet (addMessage [[StoredMsg.msg ⟨.user, .ofString "hi"⟩]] 0
        (StoredMsg.msg ⟨.assistant, .ofString "ok"⟩)) 0
      = heapGet [[StoredMsg.msg ⟨.user, .ofString "hi"⟩]] 0
        ++ [normalizeIncoming (StoredMsg.msg ⟨.assistant, .ofString "ok"⟩)]
    ∧ heapGet (clear [[StoredMsg.msg ⟨.user, .ofString "hi"⟩]] 0) 0 = [] :=
  C10_snapshot [[StoredMsg.msg ⟨.user, .ofString "hi"⟩]] 0 (by decide) [ListMutation.wipe]
    (StoredMsg.msg ⟨.assistant, .ofString "ok"⟩)

end Amplifier
